import Mathlib

/-
Verification of the PixelConvert photo-converter server (src/server.js)
against its natural-language specification. The Express route handlers are
shallowly embedded as pure Lean functions: the filesystem, the sharp
image library and the nanoid generator appear as explicit function
parameters (a read that returns none models a thrown readFileSync, a
decode that returns none models a thrown sharp metadata call, and so on).
Responses are modelled by small outcome datatypes recording the HTTP
status class, payload shape, and the list of temp paths handed to the
cleanup helper.
-/

namespace PixelConvert

/-- Bytes of a stored file, modelled as a list of byte values. -/
abbrev Bytes := List Nat

/-- An uploaded file as multer stores it: the original client-side name and
the on-disk storage path of the saved bytes (uploads dir plus a nanoid
prefix, opaque here). -/
structure InputFile where
  originalname : String
  path : String
deriving DecidableEq

/-- The cleanupFiles helper of server.js, relative to a filesystem model:
ex tells whether a path currently exists (fs.existsSync), un tells whether
fs.unlinkSync succeeds on it (false models a thrown deletion error). The
helper iterates with forEach and has no try/catch, so a thrown unlink
error propagates out of the loop and stops the iteration. First result
component: the paths on which unlinkSync was actually invoked, in order;
second component: true when the whole loop finished without a thrown
error. -/
def cleanupFiles (ex un : String → Bool) : List String → List String × Bool
  | [] => ([], true)
  | p :: ps =>
    if ex p then
      if un p then
        (p :: (cleanupFiles ex un ps).1, (cleanupFiles ex un ps).2)
      else ([p], false)
    else cleanupFiles ex un ps

/-- JSZip zip.file(nm, data): adds the entry, or updates it in place when an
entry with the same name already exists. JSZip keys its entries by name, so
a duplicate name overwrites the earlier data instead of adding a second
entry. The later zip serialization (generateAsync) is a lossless container
and is modelled as the identity on this entry list. -/
def zipInsert (entries : List (String × Bytes)) (nm : String) (data : Bytes) :
    List (String × Bytes) :=
  if entries.any (fun e => e.1 == nm) then
    entries.map (fun e => if e.1 == nm then (nm, data) else e)
  else entries ++ [(nm, data)]

/-- The read-and-add loop of the zip route: for each file, read its bytes
(fs.readFileSync; none models a thrown read error, which propagates out of
the forEach and reaches the route-level catch, aborting the loop), insert
them under the original name, and record the path in filePaths. -/
def zipAddAll (read : String → Option Bytes) :
    List InputFile → List (String × Bytes) → List String →
    Option (List (String × Bytes) × List String)
  | [], entries, paths => some (entries, paths)
  | f :: fs, entries, paths =>
    match read f.path with
    | none => none
    | some data =>
        zipAddAll read fs (zipInsert entries f.originalname data) (paths ++ [f.path])

inductive ZipOutcome where
  | badRequest (msg : String)
  | serverError
  | success (entries : List (String × Bytes))
deriving DecidableEq

/-- Outcome of the zip route plus the list of paths that were passed to
cleanupFiles; the list is empty whenever cleanupFiles was never invoked. -/
structure ZipResult where
  outcome : ZipOutcome
  cleaned : List String
deriving DecidableEq

/-- POST /convert/zip: reject an empty upload with a 400; otherwise read
every file into the archive. A single failed read throws out of the loop
into the catch block, which sends a 500 and does not call cleanupFiles.
On success the zip buffer is sent and cleanupFiles runs once over
filePaths. -/
def convertZip (read : String → Option Bytes) (files : List InputFile) : ZipResult :=
  if files.isEmpty then ⟨.badRequest "No files uploaded", []⟩
  else
    match zipAddAll read files [] [] with
    | none => ⟨.serverError, []⟩
    | some (entries, paths) => ⟨.success entries, paths⟩

def zipIsSuccess : ZipOutcome → Bool
  | .success _ => true
  | _ => false

/-- Image metadata as returned by sharp(path).metadata(): pixel width and
height, taken as exact rationals for the layout arithmetic. -/
structure ImageMeta where
  width : ℚ
  height : ℚ

/-- An image drawn on a pdf page: position of its lower-left corner and its
drawn width and height, in points. -/
structure PlacedImage where
  x : ℚ
  y : ℚ
  w : ℚ
  h : ℚ

/-- Scale factor of the pdf route: min(pageWidth / imgWidth,
pageHeight / imgHeight) * 0.8. -/
def imgScale (pw ph iw ih : ℚ) : ℚ :=
  min (pw / iw) (ph / ih) * (4 / 5)

/-- Placement computed by the pdf route for one decoded image:
scaledWidth = width * scale, scaledHeight = height * scale,
x = (pageWidth - scaledWidth) / 2, y = (pageHeight - scaledHeight) / 2. -/
def placeImage (pw ph iw ih : ℚ) : PlacedImage :=
  ⟨(pw - iw * imgScale pw ph iw ih) / 2,
   (ph - ih * imgScale pw ph iw ih) / 2,
   iw * imgScale pw ph iw ih,
   ih * imgScale pw ph iw ih⟩

/-- One page of the produced pdf: the image drawn on it, or none when the
page stayed blank because the metadata decode of its file threw. -/
structure PdfPage where
  image : Option PlacedImage

structure PdfResult where
  pages : List PdfPage
  cleanup : List String

inductive PdfOutcome where
  | badRequest (msg : String)
  | doc (result : PdfResult)

/-- Width of a default pdfkit page (doc.page.width after addPage() with no
options: US letter portrait), in points. -/
def pdfPageWidth : ℚ := 612

/-- Height of a default pdfkit page, in points. -/
def pdfPageHeight : ℚ := 792

/-- Per-file body of the pdf loop: doc.addPage() runs first, then the sharp
metadata call; when the decode throws, the catch block only logs, so the
already-added page remains in the document, blank. On success the image is
drawn scaled and centered. -/
def pdfPageFor (decode : String → Option ImageMeta) (f : InputFile) : PdfPage :=
  ⟨(decode f.path).map fun m => placeImage pdfPageWidth pdfPageHeight m.width m.height⟩

/-- POST /convert/pdf: reject an empty upload with a 400; otherwise emit
one page per input file (blank when that file failed to decode) and push
every file path onto filePaths, which cleanupFiles receives when the
response finishes. -/
def convertPdf (decode : String → Option ImageMeta) (files : List InputFile) : PdfOutcome :=
  if files.isEmpty then .badRequest "No files uploaded"
  else .doc ⟨files.map (pdfPageFor decode), files.map fun f => f.path⟩

def pdfPageCount : PdfOutcome → Nat
  | .badRequest _ => 0
  | .doc r => r.pages.length

def pdfImageCount : PdfOutcome → Nat
  | .badRequest _ => 0
  | .doc r => (r.pages.filter fun p => p.image.isSome).length

def pdfCleanup : PdfOutcome → List String
  | .badRequest _ => []
  | .doc r => r.cleanup

/-- One docx paragraph holding one embedded image with the fixed
transformation of the word route: width 400, height 300. -/
structure WordParagraph where
  data : Bytes
  width : Nat
  height : Nat
deriving DecidableEq

inductive WordOutcome where
  | badRequest (msg : String)
  | success (paragraphs : List WordParagraph) (cleanup : List String)
deriving DecidableEq

/-- The paragraph-building loop of the word route: one fixed-size image
paragraph per file whose bytes could be read, in input order; a thrown
read is caught per file and only logged, skipping that file. -/
def wordParagraphs (read : String → Option Bytes) (files : List InputFile) :
    List WordParagraph :=
  files.filterMap fun f => (read f.path).map fun b => ⟨b, 400, 300⟩

/-- POST /convert/word: reject an empty upload with a 400; otherwise build
the paragraphs, push every path onto filePaths regardless of read success,
then always serialize and send the document: the route has no check that
at least one paragraph was produced. -/
def convertWord (read : String → Option Bytes) (files : List InputFile) : WordOutcome :=
  if files.isEmpty then .badRequest "No files uploaded"
  else .success (wordParagraphs read files) (files.map fun f => f.path)

def wordCleanup : WordOutcome → List String
  | .badRequest _ => []
  | .success _ cl => cl

/-- Arguments of the single sharp call made by the gif route: the source
paths handed to sharp, whether the animated input option was set, and the
delay and loop values of the gif options. -/
structure GifCall where
  sources : List String
  animatedInput : Bool
  delay : Nat
  loopCount : Nat
deriving DecidableEq

inductive GifOutcome where
  | badRequest (msg : String)
  | success (call : GifCall) (cleanup : List String)
deriving DecidableEq

/-- POST /convert/gif: reject an empty upload with a 400. With exactly one
file, sharp(filePaths[0]).gif(delay 500, loop 0). With several files the
code still passes only filePaths[0] (with animated true) to sharp, so the
remaining files never reach the encoder. cleanupFiles receives every input
path. -/
def convertGif : List InputFile → GifOutcome
  | [] => .badRequest "No files uploaded"
  | [f] => .success ⟨[f.path], false, 500, 0⟩ [f.path]
  | f :: fs => .success ⟨[f.path], true, 500, 0⟩ (f.path :: fs.map fun g => g.path)

def gifSources : GifOutcome → List String
  | .badRequest _ => []
  | .success c _ => c.sources

/-- Allowed target formats of the image-format route. -/
def allowedFormats : List String := ["jpeg", "png", "webp", "gif", "bmp", "tiff"]

/-- Index of the last dot character in a list of characters. -/
def lastDotIdx : List Char → Option Nat
  | [] => none
  | c :: cs =>
    match lastDotIdx cs with
    | some i => some (i + 1)
    | none => if c = '.' then some 0 else none

/-- Node path.parse(s).name: the file name with its final extension
removed; a dot at position 0 (a dotfile) does not start an extension. -/
def parseName (s : String) : String :=
  match lastDotIdx s.data with
  | none => s
  | some i => if i = 0 then s else String.mk (s.data.take i)

/-- Lowercasing of one character as JS String.prototype.toLowerCase acts
on ASCII: uppercase ASCII letters are shifted down by 32, everything else
is unchanged. -/
def lowerChar (c : Char) : Char :=
  if 65 ≤ c.toNat ∧ c.toNat ≤ 90 then Char.ofNat (c.toNat + 32) else c

/-- Lowercasing of the :format route parameter (lowerStr formatCase in the
route handler), character by character. -/
def lowerStr (s : String) : String := String.mk (s.data.map lowerChar)

/-- One entry of the convertedFiles list built by the image-format route. -/
structure ConvertedFile where
  originalName : String
  convertedName : String
  path : String
deriving DecidableEq

/-- The conversion loop of the image-format route: each file for which the
sharp re-encode succeeds (convertOk) yields a record with the converted
name (original base name plus the target extension) and the fresh output
path (mkPath models the nanoid-based output path generated for the file).
A file whose conversion throws is skipped with a log. -/
def convertedOf (format : String) (mkPath : InputFile → String)
    (convertOk : InputFile → Bool) (files : List InputFile) : List ConvertedFile :=
  files.filterMap fun f =>
    if convertOk f then
      some ⟨f.originalname, parseName f.originalname ++ "." ++ format, mkPath f⟩
    else none

/-- Zip built over the converted artifacts in the multi-file branch of the
image-format route: readOut reads the re-encoded bytes from disk. -/
def zipEntriesOf (readOut : String → Bytes) (cs : List ConvertedFile) :
    List (String × Bytes) :=
  cs.foldl (fun acc c => zipInsert acc c.convertedName (readOut c.path)) []

inductive ImgOutcome where
  | badRequest (msg : String)
  | serverError (msg : String)
  | single (contentType : String) (filename : String) (path : String) (cleaned : List String)
  | zipped (contentType : String) (entries : List (String × Bytes)) (cleaned : List String)
deriving DecidableEq

/-- POST /convert/image/:format: the format whitelist check runs first (on
the lowercased format), then the empty-upload check; after the per-file
conversion loop, zero successes give a 500, exactly one success streams the
single artifact with content type image/ plus the format as given, and two
or more successes are zipped. The cleaned lists record what cleanupFiles
receives in each branch. -/
def convertImage (format : String) (mkPath : InputFile → String)
    (convertOk : InputFile → Bool) (readOut : String → Bytes)
    (files : List InputFile) : ImgOutcome :=
  if !(allowedFormats.contains (lowerStr format)) then .badRequest "Unsupported format"
  else if files.isEmpty then .badRequest "No files uploaded"
  else
    match convertedOf format mkPath convertOk files with
    | [] => .serverError "No files were successfully converted"
    | [c] => .single ("image/" ++ format) c.convertedName c.path
        ((files.map fun f => f.path) ++ [c.path])
    | cs => .zipped "application/zip" (zipEntriesOf readOut cs)
        ((files.map fun f => f.path) ++ cs.map fun c => c.path)

/-- Decoder of the three-file pdf scenario: the metadata decode fails
exactly on the second stored file. -/
def cdecode : String → Option ImageMeta :=
  fun p => if p = "u2" then none else some ⟨100, 150⟩

/-- Three uploaded files for the pdf scenario; the second one is the
undecodable image. -/
def cfiles : List InputFile := [⟨"a.jpg", "u1"⟩, ⟨"b.jpg", "u2"⟩, ⟨"c.jpg", "u3"⟩]

/-- Reader of the duplicate-name zip scenario: both stored files are
readable, with different bytes. -/
def dupRead : String → Option Bytes :=
  fun p => if p = "p1" then some [1] else some [2]

/-- Two uploaded files that share the original name a.jpg. -/
def dupFiles : List InputFile := [⟨"a.jpg", "p1"⟩, ⟨"a.jpg", "p2"⟩]

/-- Inserting a name that is not yet present appends a new entry at the
end of the archive. -/
theorem zipInsert_notMem (entries : List (String × Bytes)) (nm : String) (data : Bytes)
    (h : ∀ e ∈ entries, e.1 ≠ nm) :
    zipInsert entries nm data = entries ++ [(nm, data)] := by
  have hc : entries.any (fun e => e.1 == nm) = false := by
    simp only [List.any_eq_false]
    intro e he
    simpa using h e he
  simp [zipInsert, hc]

/-- Whatever the archive contents, a successful pass of the zip loop records
exactly the input paths, in order, after the accumulator. -/
theorem zipAddAll_paths (read : String → Option Bytes) (files : List InputFile) :
    ∀ (entries : List (String × Bytes)) (paths : List String)
      (e : List (String × Bytes)) (p : List String),
      zipAddAll read files entries paths = some (e, p) →
      p = paths ++ files.map fun f => f.path := by
  induction files with
  | nil =>
      intro entries paths e p h
      simp only [zipAddAll, Option.some.injEq, Prod.mk.injEq] at h
      simp [h.2]
  | cons f fs ih =>
      intro entries paths e p h
      cases hr : read f.path with
      | none => simp [zipAddAll, hr] at h
      | some data =>
          have h2 := ih (zipInsert entries f.originalname data) (paths ++ [f.path]) e p
            (by simpa [zipAddAll, hr] using h)
          simp [h2]

/-- Running the zip loop over files with pairwise distinct original names,
all readable and none colliding with the accumulator, appends one entry per
file holding that file's bytes. -/
theorem zipAddAll_distinct (read : String → Bytes) (files : List InputFile) :
    ∀ (entries : List (String × Bytes)) (paths : List String),
      (files.map fun f => f.originalname).Nodup →
      (∀ f ∈ files, ∀ e ∈ entries, e.1 ≠ f.originalname) →
      zipAddAll (fun q => some (read q)) files entries paths =
        some (entries ++ files.map fun f => (f.originalname, read f.path),
              paths ++ files.map fun f => f.path) := by
  induction files with
  | nil => intro entries paths _ _; simp [zipAddAll]
  | cons f fs ih =>
      intro entries paths hnd hdisj
      have hins : zipInsert entries f.originalname (read f.path) =
          entries ++ [(f.originalname, read f.path)] :=
        zipInsert_notMem _ _ _ (fun e he => hdisj f (List.mem_cons_self f fs) e he)
      have hhead : f.originalname ∉ fs.map fun g => g.originalname :=
        (List.nodup_cons.1 hnd).1
      have hnd' : (fs.map fun g => g.originalname).Nodup := (List.nodup_cons.1 hnd).2
      have hdisj' : ∀ g ∈ fs, ∀ e ∈ entries ++ [(f.originalname, read f.path)],
          e.1 ≠ g.originalname := by
        intro g hg e he
        rcases List.mem_append.1 he with h1 | h1
        · exact hdisj g (List.mem_cons_of_mem _ hg) e h1
        · have : e = (f.originalname, read f.path) := by simpa using h1
          subst this
          intro hEq
          exact hhead (by
            simp only [List.mem_map]
            exact ⟨g, hg, hEq.symm⟩)
      simp only [zipAddAll, hins]
      rw [ih (entries ++ [(f.originalname, read f.path)]) (paths ++ [f.path]) hnd' hdisj']
      simp

/-- C3 (counterexample): the claim that duplicate original names are
preserved as given fails. With two readable files both named a.jpg
(bytes [1] and [2]) the archive holds a single entry, carrying the bytes
of the later file: JSZip overwrites the earlier entry, so the entry count
is 1, not the input count 2. -/
theorem convertZip_duplicate_name_cex :
    (convertZip dupRead dupFiles).outcome = .success [("a.jpg", [2])] ∧
    dupFiles.length = 2 ∧
    ([("a.jpg", ([2] : Bytes))] : List (String × Bytes)).length ≠ dupFiles.length := by
  refine ⟨by decide, by decide, by decide⟩

/-- C3 (amended): for a zip request whose files have pairwise distinct
original names and all read successfully, the archive holds exactly one
entry per input file, in order, under the original name and with bytes
equal to the original stored bytes; with duplicate names, JSZip overwrites
the earlier entry instead of keeping both. -/
theorem convertZip_distinct_names (read : String → Bytes) (files : List InputFile)
    (hnd : (files.map fun f => f.originalname).Nodup) (hne : files ≠ []) :
    (convertZip (fun q => some (read q)) files).outcome =
      .success (files.map fun f => (f.originalname, read f.path)) ∧
    (files.map fun f => (f.originalname, read f.path)).length = files.length := by
  have hiE : files.isEmpty = false := by
    cases files with
    | nil => exact absurd rfl hne
    | cons a l => rfl
  have h := zipAddAll_distinct read files [] [] hnd (by intro f _ e he; simp at he)
  constructor
  · simp [convertZip, hiE, h]
  · simp

/-- C3 (witness): two distinct-name files, both readable, produce the
two-entry archive with the original bytes. -/
theorem convertZip_distinct_names_witness :
    (convertZip (fun q => some (if q = "p1" then ([1] : Bytes) else [2]))
        [⟨"a.jpg", "p1"⟩, ⟨"b.jpg", "p2"⟩]).outcome =
      .success (([⟨"a.jpg", "p1"⟩, ⟨"b.jpg", "p2"⟩] : List InputFile).map fun f =>
        (f.originalname, if f.path = "p1" then ([1] : Bytes) else [2])) :=
  (convertZip_distinct_names (fun q => if q = "p1" then [1] else [2])
    [⟨"a.jpg", "p1"⟩, ⟨"b.jpg", "p2"⟩] (by decide) (by decide)).1

/-- C4 (counterexample): cleanup does not run on the error exit path. With
a single file whose read throws, the zip route answers with a 500 from its
catch block and cleanupFiles is never invoked, so the stored file p1
remains in the temp store. -/
theorem convertZip_error_no_cleanup_cex :
    (convertZip (fun _ => (none : Option Bytes)) [⟨"a.jpg", "p1"⟩]).outcome =
      ZipOutcome.serverError ∧
    (convertZip (fun _ => (none : Option Bytes)) [⟨"a.jpg", "p1"⟩]).cleaned = [] := by
  refine ⟨by decide, by decide⟩

/-- C4 (amended): in the zip route, cleanup runs exactly once, only on the
success path, and there it receives exactly the full set of input file
paths (so when the deletions succeed, no file of the request remains); on
both error exit paths (empty upload, thrown read) cleanupFiles is never
invoked and its path list is empty. -/
theorem convertZip_cleanup_success_only (read : String → Option Bytes)
    (files : List InputFile) :
    (convertZip read files).cleaned =
      (if zipIsSuccess (convertZip read files).outcome then files.map fun f => f.path
       else []) := by
  unfold convertZip
  cases hE : files.isEmpty with
  | true => simp [zipIsSuccess]
  | false =>
      cases hz : zipAddAll read files [] [] with
      | none => simp [zipIsSuccess]
      | some ep =>
          obtain ⟨e, p⟩ := ep
          have hp := zipAddAll_paths read files [] [] e p hz
          simpa [zipIsSuccess] using hp

/-- Counting the non-blank pages of the pdf loop is counting the files
whose metadata decode succeeded. -/
theorem pdfPages_filter_isSome (decode : String → Option ImageMeta) :
    ∀ files : List InputFile,
      ((files.map (pdfPageFor decode)).filter fun p => p.image.isSome).length =
        (files.filter fun f => (decode f.path).isSome).length := by
  intro files
  induction files with
  | nil => rfl
  | cons f fs ih =>
      cases hd : decode f.path with
      | none => simp [pdfPageFor, hd, ih, List.filter_cons]
      | some m => simp [pdfPageFor, hd, ih, List.filter_cons]

/-- C1 (counterexample): with three files of which exactly the second is
undecodable, the pdf route produces a 3-page document (the page for the bad
file was added before the decode and stays, blank), not the 2-page document
the claim states, although only 2 files decoded successfully. -/
theorem convertPdf_three_files_cex :
    pdfPageCount (convertPdf cdecode cfiles) = 3 ∧
    pdfImageCount (convertPdf cdecode cfiles) = 2 ∧
    pdfPageCount (convertPdf cdecode cfiles) ≠ 2 := by
  refine ⟨by decide, by decide, by decide⟩

/-- C1 (amended): the pdf route emits one page per input file, because
doc.addPage() runs before the metadata decode and a decode failure only
skips drawing the image, leaving the already-added page blank; the number
of pages bearing an image equals the number of files that decoded
successfully, and a failing file never aborts the rest of the document. -/
theorem convertPdf_page_per_file (decode : String → Option ImageMeta)
    (files : List InputFile) :
    pdfPageCount (convertPdf decode files) = files.length ∧
    pdfImageCount (convertPdf decode files) =
      (files.filter fun f => (decode f.path).isSome).length := by
  cases files with
  | nil => exact ⟨rfl, rfl⟩
  | cons f fs =>
      constructor
      · simp [convertPdf, pdfPageCount]
      · simpa [convertPdf, pdfImageCount] using
          pdfPages_filter_isSome decode (f :: fs)

/-- C7 (confirmed): for every decoded image the pdf route uses the scale
factor min(pageWidth / imgWidth, pageHeight / imgHeight) * 0.8, draws the
image at (imgWidth * scale, imgHeight * scale), which preserves the aspect
ratio and stays within 80 percent of the page in both dimensions, and
centers it at x = (pageWidth - scaledWidth) / 2 and
y = (pageHeight - scaledHeight) / 2. -/
theorem placeImage_spec (pw ph iw ih : ℚ) (hiw : 0 < iw) (hih : 0 < ih) :
    imgScale pw ph iw ih = min (pw / iw) (ph / ih) * (4 / 5) ∧
    (placeImage pw ph iw ih).w = iw * imgScale pw ph iw ih ∧
    (placeImage pw ph iw ih).h = ih * imgScale pw ph iw ih ∧
    (placeImage pw ph iw ih).w * ih = (placeImage pw ph iw ih).h * iw ∧
    (placeImage pw ph iw ih).w ≤ 4 / 5 * pw ∧
    (placeImage pw ph iw ih).h ≤ 4 / 5 * ph ∧
    (placeImage pw ph iw ih).x = (pw - (placeImage pw ph iw ih).w) / 2 ∧
    (placeImage pw ph iw ih).y = (ph - (placeImage pw ph iw ih).h) / 2 := by
  refine ⟨rfl, rfl, rfl, by simp only [placeImage]; ring, ?_, ?_, rfl, rfl⟩
  · have h1 : min (pw / iw) (ph / ih) ≤ pw / iw := min_le_left _ _
    have h2 : iw * (min (pw / iw) (ph / ih) * (4 / 5)) ≤ iw * (pw / iw * (4 / 5)) := by
      apply mul_le_mul_of_nonneg_left _ hiw.le
      exact mul_le_mul_of_nonneg_right h1 (by norm_num)
    have h3 : iw * (pw / iw * (4 / 5)) = 4 / 5 * pw := by
      field_simp
      ring
    calc (placeImage pw ph iw ih).w = iw * (min (pw / iw) (ph / ih) * (4 / 5)) := rfl
      _ ≤ iw * (pw / iw * (4 / 5)) := h2
      _ = 4 / 5 * pw := h3
  · have h1 : min (pw / iw) (ph / ih) ≤ ph / ih := min_le_right _ _
    have h2 : ih * (min (pw / iw) (ph / ih) * (4 / 5)) ≤ ih * (ph / ih * (4 / 5)) := by
      apply mul_le_mul_of_nonneg_left _ hih.le
      exact mul_le_mul_of_nonneg_right h1 (by norm_num)
    have h3 : ih * (ph / ih * (4 / 5)) = 4 / 5 * ph := by
      field_simp
      ring
    calc (placeImage pw ph iw ih).h = ih * (min (pw / iw) (ph / ih) * (4 / 5)) := rfl
      _ ≤ ih * (ph / ih * (4 / 5)) := h2
      _ = 4 / 5 * ph := h3

/-- C7 (witness): on a default page with a 100 by 150 image, the placement
facts hold as stated. -/
theorem placeImage_spec_witness :
    0 < (100 : ℚ) ∧ 0 < (150 : ℚ) ∧
    (placeImage 612 792 100 150).w ≤ 4 / 5 * 612 ∧
    (placeImage 612 792 100 150).h ≤ 4 / 5 * 792 ∧
    (placeImage 612 792 100 150).x = (612 - (placeImage 612 792 100 150).w) / 2 :=
  ⟨by norm_num, by norm_num,
   (placeImage_spec 612 792 100 150 (by norm_num) (by norm_num)).2.2.2.2.1,
   (placeImage_spec 612 792 100 150 (by norm_num) (by norm_num)).2.2.2.2.2.1,
   (placeImage_spec 612 792 100 150 (by norm_num) (by norm_num)).2.2.2.2.2.2.1⟩

/-- C10 (confirmed): in the pdf and word routes every input file path is
appended to the cleanup list regardless of whether its per-file processing
succeeded, so the list handed to cleanupFiles always equals the full input
path set, for every decoder and reader. -/
theorem cleanup_lists_cover_all_inputs (decode : String → Option ImageMeta)
    (read : String → Option Bytes) (files : List InputFile) :
    pdfCleanup (convertPdf decode files) = (files.map fun f => f.path) ∧
    wordCleanup (convertWord read files) = (files.map fun f => f.path) := by
  cases files with
  | nil => exact ⟨rfl, rfl⟩
  | cons f fs =>
      exact ⟨by simp [convertPdf, pdfCleanup], by simp [convertWord, wordCleanup]⟩

/-- Counting the paragraphs built by the word loop is counting the files
whose bytes could be read. -/
theorem wordParagraphs_length (read : String → Option Bytes) :
    ∀ files : List InputFile,
      (wordParagraphs read files).length =
        (files.filter fun f => (read f.path).isSome).length := by
  intro files
  induction files with
  | nil => rfl
  | cons f fs ih =>
      cases hr : read f.path with
      | none => simpa [wordParagraphs, hr, List.filter_cons] using ih
      | some b => simpa [wordParagraphs, hr, List.filter_cons] using ih

/-- C5 (counterexample): with one file whose bytes cannot be read, zero
paragraphs are produced and the word route still serializes and sends a
success document (with the file path in the cleanup list); it does not fail
with a NoValidImages error. -/
theorem convertWord_zero_paragraphs_cex :
    convertWord (fun _ => (none : Option Bytes)) [⟨"a.jpg", "p1"⟩] =
      WordOutcome.success [] ["p1"] := by
  decide

/-- C5 (amended): the word route has no zero-paragraph guard and never
fails with NoValidImages: for every nonempty upload it responds with a
serialized success document whose paragraphs are exactly the files whose
bytes could be read, in input order, even when that number is zero. -/
theorem convertWord_never_fails (read : String → Option Bytes)
    (files : List InputFile) (h : files ≠ []) :
    convertWord read files =
      .success (wordParagraphs read files) (files.map fun f => f.path) ∧
    (wordParagraphs read files).length =
      (files.filter fun f => (read f.path).isSome).length := by
  have hiE : files.isEmpty = false := by
    cases files with
    | nil => exact absurd rfl h
    | cons a l => rfl
  exact ⟨by simp [convertWord, hiE], wordParagraphs_length read files⟩

/-- C5 (witness): the amended statement at the concrete all-unreadable
single-file upload, where a success document with zero paragraphs is
sent. -/
theorem convertWord_never_fails_witness :
    ([⟨"a.jpg", "p1"⟩] : List InputFile) ≠ [] ∧
    convertWord (fun _ => (none : Option Bytes)) [⟨"a.jpg", "p1"⟩] =
      .success (wordParagraphs (fun _ => (none : Option Bytes)) [⟨"a.jpg", "p1"⟩])
        ["p1"] :=
  ⟨by decide,
   (convertWord_never_fails (fun _ => (none : Option Bytes)) [⟨"a.jpg", "p1"⟩]
      (by decide)).1⟩

/-- C2 (code bug): with two uploaded files the gif route passes only the
first stored path to the encoder (sharp(filePaths[0], animated true) with
delay 500 and loop 0), so the second image contributes no frame to the
animated output, contradicting the one-frame-per-input claim; the delay and
loop options and the cleanup of both paths match the claim. -/
theorem convertGif_first_file_only :
    convertGif [⟨"a.png", "u1"⟩, ⟨"b.png", "u2"⟩] =
      .success ⟨["u1"], true, 500, 0⟩ ["u1", "u2"] ∧
    gifSources (convertGif [⟨"a.png", "u1"⟩, ⟨"b.png", "u2"⟩]) = ["u1"] ∧
    "u2" ∉ gifSources (convertGif [⟨"a.png", "u1"⟩, ⟨"b.png", "u2"⟩]) := by
  refine ⟨by decide, by decide, by decide⟩

/-- C8 (counterexample): cleanup is not best-effort. With two existing
paths a and b where unlinking a throws, the forEach aborts on a and path b
receives no deletion attempt. -/
theorem cleanupFiles_stops_after_error_cex :
    cleanupFiles (fun _ => true) (fun q => !(q == "a")) ["a", "b"] = (["a"], false) ∧
    "b" ∉ (cleanupFiles (fun _ => true) (fun q => !(q == "a")) ["a", "b"]).1 := by
  refine ⟨by decide, by decide⟩

/-- C8 (amended): cleanupFiles attempts deletions in order, skipping paths
that do not exist; as long as no attempted deletion throws, every existing
path in the list is attempted, but the first thrown deletion error aborts
the loop, so the paths after the failing one get no deletion attempt. -/
theorem cleanupFiles_abort_behavior (ex un : String → Bool) (l1 : List String)
    (p : String) (l2 : List String) (h1 : ∀ q ∈ l1, un q = true)
    (h2 : ex p = true) (h3 : un p = false) :
    cleanupFiles ex un (l1 ++ p :: l2) = (l1.filter ex ++ [p], false) ∧
    cleanupFiles ex un l1 = (l1.filter ex, true) := by
  induction l1 with
  | nil =>
      refine ⟨?_, rfl⟩
      simp [cleanupFiles, h2, h3]
  | cons q l ih =>
      have hq : un q = true := h1 q (List.mem_cons_self q l)
      have ih' := ih (fun r hr => h1 r (List.mem_cons_of_mem q hr))
      cases hx : ex q with
      | true =>
          refine ⟨?_, ?_⟩
          · simp [cleanupFiles, hx, hq, ih'.1, List.filter_cons]
          · simp [cleanupFiles, hx, hq, ih'.2, List.filter_cons]
      | false =>
          refine ⟨?_, ?_⟩
          · simp [cleanupFiles, hx, ih'.1, List.filter_cons]
          · simp [cleanupFiles, hx, ih'.2, List.filter_cons]

/-- C8 (witness): with existing paths x, p, z where unlinking p throws, x
is deleted, p is attempted, and z is never attempted. -/
theorem cleanupFiles_abort_behavior_witness :
    cleanupFiles (fun _ => true) (fun q => !(q == "p")) (["x"] ++ "p" :: ["z"]) =
      (List.filter (fun _ => true) ["x"] ++ ["p"], false) :=
  (cleanupFiles_abort_behavior (fun _ => true) (fun q => !(q == "p")) ["x"] "p" ["z"]
    (by decide) (by decide) (by decide)).1

/-- C6 (confirmed): in the image-format route with an allowed target format
and a nonempty upload, every converted artifact is named with the original
base name plus the target extension, and after the per-file re-encoding the
response is dispatched on the number of successes: zero gives the 500
NoValidImages-class error and nothing is streamed, exactly one streams that
single artifact with content type image/ plus the format, and two or more
give the zip archive of the converted artifacts. -/
theorem convertImage_dispatch (format : String) (mkPath : InputFile → String)
    (convertOk : InputFile → Bool) (readOut : String → Bytes)
    (files : List InputFile)
    (hfmt : allowedFormats.contains (lowerStr format) = true) (hne : files ≠ []) :
    (∀ c ∈ convertedOf format mkPath convertOk files,
        c.convertedName = parseName c.originalName ++ "." ++ format) ∧
    (convertedOf format mkPath convertOk files = [] →
        convertImage format mkPath convertOk readOut files =
          .serverError "No files were successfully converted") ∧
    (∀ c, convertedOf format mkPath convertOk files = [c] →
        convertImage format mkPath convertOk readOut files =
          .single ("image/" ++ format) c.convertedName c.path
            ((files.map fun f => f.path) ++ [c.path])) ∧
    (∀ c₁ c₂ rest, convertedOf format mkPath convertOk files = c₁ :: c₂ :: rest →
        convertImage format mkPath convertOk readOut files =
          .zipped "application/zip" (zipEntriesOf readOut (c₁ :: c₂ :: rest))
            ((files.map fun f => f.path) ++ (c₁ :: c₂ :: rest).map fun c => c.path)) := by
  have hiE : files.isEmpty = false := by
    cases files with
    | nil => exact absurd rfl hne
    | cons a l => rfl
  have hmem : lowerStr format ∈ allowedFormats := by simpa using hfmt
  refine ⟨?_, ?_, ?_, ?_⟩
  · intro c hc
    simp only [convertedOf, List.mem_filterMap] at hc
    obtain ⟨f, _, hcf⟩ := hc
    cases hok : convertOk f with
    | false => rw [hok] at hcf; simp at hcf
    | true =>
        rw [hok] at hcf
        simp only [if_true] at hcf
        have := Option.some.inj hcf
        subst this
        rfl
  · intro h0
    simp [convertImage, hmem, hiE, h0]
  · intro c h1
    simp [convertImage, hmem, hiE, h1]
  · intro c₁ c₂ rest h2
    simp [convertImage, hmem, hiE, h2]

/-- C6 (witness): a single valid photo.jpg converted to png streams one
artifact with content type image/png and filename photo.png, original base
name preserved. -/
theorem convertImage_dispatch_witness :
    allowedFormats.contains (lowerStr "png") = true ∧
    convertImage "png" (fun _ => "out1") (fun _ => true) (fun _ => [])
        [⟨"photo.jpg", "p1"⟩] =
      .single "image/png" "photo.png" "out1" ["p1", "out1"] :=
  ⟨by decide,
   (convertImage_dispatch "png" (fun _ => "out1") (fun _ => true) (fun _ => [])
      [⟨"photo.jpg", "p1"⟩] (by decide) (by decide)).2.2.1
      ⟨"photo.jpg", "photo.png", "out1"⟩ (by decide)⟩

/-- C9 (confirmed): the image-format route checks the target format before
the empty-upload check, so a request with zero files and an unsupported
format is answered with the 400 Unsupported format error, not the 400 No
files uploaded error. -/
theorem convertImage_format_before_files (format : String)
    (mkPath : InputFile → String) (convertOk : InputFile → Bool)
    (readOut : String → Bytes)
    (h : allowedFormats.contains (lowerStr format) = false) :
    convertImage format mkPath convertOk readOut [] =
      .badRequest "Unsupported format" := by
  have hnm : lowerStr format ∉ allowedFormats := by simpa using h
  simp [convertImage, hnm]

/-- C9 (witness): the unsupported format svg with an empty upload yields
the Unsupported format error. -/
theorem convertImage_format_before_files_witness :
    allowedFormats.contains (lowerStr "svg") = false ∧
    convertImage "svg" (fun _ => "o") (fun _ => true) (fun _ => []) [] =
      .badRequest "Unsupported format" :=
  ⟨by decide,
   convertImage_format_before_files "svg" (fun _ => "o") (fun _ => true)
     (fun _ => []) (by decide)⟩

end PixelConvert
